import Mathlib

/-!
Verification development for the Track-My-Poo sewer-flow tracer.

The repository contains several successive variants of the same core
(connectivity graph construction, successor resolution, path tracing).
We shallowly embed the functions the claims are about:

* `DirOnly`   — the DIR-only greedy walker of `src/unnamed/part_000`
  counterpart file `part_001` (`chooseNextPipeDirOnly`,
  `buildPipePlanFromObjectId` with the `maxHops` for-loop cap).
* `CoordGraph` — the coordinate-graph variant of `src/unnamed/part_000`
  (`chooseNextPipeLowestDownIL`, `chooseNextPipeWithLookahead`,
  `lookaheadScore`, and the `pushPoint` based coordinate emission of its
  `buildPipePlanFromObjectId`).
* `Bridge`    — the gap-bridging Pass 2 of
  `src/web/src/Backup/260212 App v41.jsx`.

Numbers are embedded as rationals.  The JavaScript geometry helpers
(`metersBetween`, `bearingDeg`, `gridKey`, `mercatorMetersFromLngLat`)
evaluate transcendental functions on IEEE doubles; they are embedded as an
abstract `Geom` record of rational-valued functions, and the concrete
instantiation `ratGeo` is a rational stand-in used for closed evaluations
whose outcome does not depend on the metric's values (identical points have
identical keys and distance minimal at zero under any instantiation).
-/

namespace TrackMyPoo

attribute [local semireducible] Rat.add Rat.sub Rat.mul Rat.inv Rat.ofScientific

/-- A latitude/longitude pair, as the `{lat, lng}` objects of the source. -/
structure Pt where
  lat : ℚ
  lng : ℚ
deriving DecidableEq, Repr

/-- Abstract geometry helpers.  `metersBetween`, `bearingDeg` and `gridKey`
are floating-point/trigonometric in the source; the traversal logic only
consumes their results through comparisons, so they are kept abstract. -/
structure Geom where
  metersBetween : Pt → Pt → ℚ
  bearingDeg : Pt → Pt → ℚ
  gridKey : Pt → ℚ → ℤ × ℤ

/-- Rational stand-in instantiation of the geometry helpers (squared planar
distance, a planar pseudo-bearing, and rounded quantization).  Used only for
closed evaluations that are independent of the metric's actual values. -/
def ratGeo : Geom where
  metersBetween a b := (a.lat - b.lat) ^ 2 + (a.lng - b.lng) ^ 2
  bearingDeg a b := (b.lng - a.lng) + (b.lat - a.lat)
  gridKey p cell := (round (p.lng / cell), round (p.lat / cell))

/-- A raw JSON attribute value as consumed by `toNum`: absent/null, a
non-finite number, or a finite number. -/
inductive JNum where
  | missing : JNum
  | nan : JNum
  | num : ℚ → JNum
deriving DecidableEq, Repr

/-- `toNum` of the source: a finite number passes through, everything else
(absent, null, NaN/Infinity) becomes `null`. -/
def toNum : JNum → Option ℚ
  | .missing => none
  | .nan => none
  | .num q => some q

/-- JavaScript `x || dflt` on an optional number: `null`, `undefined` and
`0` are falsy. -/
def jsOrNum (o : Option ℚ) (dflt : ℚ) : ℚ :=
  match o with
  | none => dflt
  | some q => if q = 0 then dflt else q

/-- JavaScript `x || dflt` on an optional string against a literal default:
`null`, `undefined` and the empty string are falsy. -/
def jsOrStr (o : Option String) (dflt : String) : String :=
  match o with
  | none => dflt
  | some s => if s = "" then dflt else s

/-- JavaScript `a || b` for two optional strings coerced with `String(v || "")`
as in `normaliseSewerName(p.SEWER_NAME || p.SEWERNAME)`. -/
def strFalsyOr (a b : Option String) : String :=
  match a with
  | some s => if s = "" then jsOrStr b "" else s
  | none => jsOrStr b ""

/-- `clamp(n, a, b) = Math.max(a, Math.min(b, n))`. -/
def clamp (n a b : ℚ) : ℚ := max a (min b n)

/-- Collapse runs of whitespace to a single space, the `replace(/\s+/g, " ")`
step of `normaliseSewerName`. -/
def collapseWs : Bool → List Char → List Char
  | _, [] => []
  | prevWs, c :: rest =>
    if c.isWhitespace then
      if prevWs then collapseWs true rest else ' ' :: collapseWs true rest
    else c :: collapseWs false rest

/-- Keep only word characters and whitespace, the `replace(/[^\w\s]/g, "")`
step of `normaliseSewerName`. -/
def keepWordChars (cs : List Char) : List Char :=
  cs.filter fun c => c.isAlphanum || c = '_' || c.isWhitespace

/-- JavaScript `String.prototype.toUpperCase` on the characters. -/
def toUpperStr (s : String) : String :=
  String.mk (s.toList.map Char.toUpper)

/-- JavaScript `String.prototype.toLowerCase` on the characters. -/
def toLowerStr (s : String) : String :=
  String.mk (s.toList.map Char.toLower)

/-- JavaScript `String.prototype.trim`: strip whitespace from both ends. -/
def trimStr (s : String) : String :=
  String.mk (((s.toList.dropWhile Char.isWhitespace).reverse.dropWhile
    Char.isWhitespace).reverse)

/-- `normaliseSewerName`: upper-case, collapse whitespace, strip non-word
characters, trim. -/
def normaliseSewerName (v : String) : String :=
  trimStr (String.mk (keepWordChars (collapseWs false (toUpperStr v).toList)))

/-- The per-feature property bag, restricted to the attributes the embedded
functions read.  Raw attributes are optional; fields the load pass derives
(`_dir`, `_dir_source`, `_nextObjectIds`, `_v_half_mps`, …) are carried in the
same bag, as in the source. -/
structure Props where
  SEWER_NAME : Option String := none
  SEWERNAME : Option String := none
  DOWNSTREAM_IL : JNum := .missing
  UPSTREAM_IL : JNum := .missing
  PIPE_LENGTH : JNum := .missing
  PIPE_WIDTH : JNum := .missing
  PIPE_HEIGHT : JNum := .missing
  DIR : Option String := none
  Dir : Option String := none
  dir : Option String := none
  DIRECTION : Option String := none
  Direction : Option String := none
  direction : Option String := none
  _dir : Option String := none
  _dir_source : Option String := none
  _sewer_name_norm : Option String := none
  _v_half_mps : JNum := .missing
  _segment_candidate_objectid : Option ℤ := none
  _nextObjectIds : List ℤ := []
deriving DecidableEq, Repr

/-- The empty property bag, the `ft?.properties || {}` fallback. -/
def emptyProps : Props := {}

/-- A feature geometry: LineString, MultiLineString, or anything else. -/
inductive PipeGeometry where
  | lineStr : List Pt → PipeGeometry
  | multiLineStr : List (List Pt) → PipeGeometry
  | noGeom : PipeGeometry
deriving DecidableEq, Repr

/-- A GeoJSON feature: geometry plus property bag. -/
structure Feature where
  geometry : PipeGeometry
  properties : Props
deriving DecidableEq, Repr

/-- The `byObjectId` map, OBJECTID to feature. -/
def ByObjectId := ℤ → Option Feature

/-- `ft?.properties || {}`. -/
def propsOf (o : Option Feature) : Props :=
  match o with
  | some ft => ft.properties
  | none => emptyProps

/-- `flattenFeatureCoords` as in `part_000`/`part_001`: a LineString is used
as is; of a MultiLineString the single longest part (by vertex count, parts
of fewer than 2 vertices skipped, first longest wins) is returned. -/
def flattenFeatureCoords (ft : Feature) : List Pt :=
  match ft.geometry with
  | .noGeom => []
  | .lineStr cs => cs
  | .multiLineStr parts =>
    let best := parts.foldl
      (fun acc part =>
        if part.length < 2 then acc
        else if (part.length : ℤ) > acc.2 then (part, (part.length : ℤ)) else acc)
      (([] : List Pt), (-1 : ℤ))
    if best.2 > 0 then best.1 else []

/-- `angleDiffDeg(a, b)`: absolute bearing difference folded into [0, 180].
JavaScript `%` on the non-negative `|a - b|` is `x - 360 * ⌊x / 360⌋`. -/
def angleDiffDeg (a b : ℚ) : ℚ :=
  let d := |a - b| - 360 * ⌊|a - b| / 360⌋
  if d > 180 then 360 - d else d

/-- `parseDirFromProps`: first non-null of the six key variants, trimmed and
lower-cased, matched against the accepted `u_to_d` / `d_to_u` spellings. -/
def parseDirFromProps (p : Props) : Option String :=
  match p.DIR <|> p.Dir <|> p.dir <|> p.DIRECTION <|> p.Direction <|> p.direction with
  | none => none
  | some raw =>
    let v := toLowerStr (trimStr raw)
    if v = "u_to_d" ∨ v = "u-to-d" ∨ v = "u to d" ∨ v = "u2d" ∨ v = "uto_d" then
      some "u_to_d"
    else if v = "d_to_u" ∨ v = "d-to-u" ∨ v = "d to u" ∨ v = "d2u" ∨ v = "dto_u" then
      some "d_to_u"
    else none

/-- The direction decision of the `part_001` load pass (lines 702–718):
explicit DIR attribute first, then invert-level comparison, then the
forward-order default.  Returns `(dir, dirSource)`. -/
def decideDir (p : Props) : String × String :=
  match parseDirFromProps p with
  | some d => (d, "DIR")
  | none =>
    match toNum p.UPSTREAM_IL, toNum p.DOWNSTREAM_IL with
    | some upIL, some downIL =>
      (if upIL ≥ downIL then "u_to_d" else "d_to_u", "IL")
    | _, _ => ("u_to_d", "default")

/-- `PIPE_SPEED_MIN_MPS = 0.2`. -/
def PIPE_SPEED_MIN_MPS : ℚ := 1 / 5

/-- `PIPE_SPEED_MAX_MPS = 3.0`. -/
def PIPE_SPEED_MAX_MPS : ℚ := 3

/-- The speed computed by `enterPipeMode`:
`clamp(toNum(props._v_half_mps) || 0, PIPE_SPEED_MIN_MPS, PIPE_SPEED_MAX_MPS)`. -/
def enterPipeModeSpeed (props : Props) : ℚ :=
  clamp (jsOrNum (toNum props._v_half_mps) 0) PIPE_SPEED_MIN_MPS PIPE_SPEED_MAX_MPS

/-- The per-tick pipe-movement speed of the animation effect
(`part_001` lines 1128–1138): start from `pt.pipe?.speedMps || 0.6`; when the
graph and the current OBJECTID are available re-read `_v_half_mps` and clamp
into the safety band. -/
def tickPipeSpeed (prevSpeed : Option ℚ) (byObjectId : Option ByObjectId)
    (objectId : Option ℤ) : ℚ :=
  let speed := jsOrNum prevSpeed (3 / 5)
  match byObjectId, objectId with
  | some m, some oid =>
    let props := propsOf (m oid)
    let vRaw := jsOrNum (toNum props._v_half_mps) speed
    clamp vRaw PIPE_SPEED_MIN_MPS PIPE_SPEED_MAX_MPS
  | _, _ => speed

/-- Index of the vertex of `ord` nearest to `p` (strict improvement, first
minimum wins), the nearest-coordinate scan of `buildPipePlanFromObjectId`;
`none` plays the role of the `Infinity` initial best distance. -/
def nearestIdxAux (G : Geom) (p : Pt) :
    List Pt → Nat → Nat → Option ℚ → Nat
  | [], _, bestIdx, _ => bestIdx
  | c :: rest, i, bestIdx, bestDist =>
    let d := G.metersBetween p c
    match bestDist with
    | none => nearestIdxAux G p rest (i + 1) i (some d)
    | some bd =>
      if d < bd then nearestIdxAux G p rest (i + 1) i (some d)
      else nearestIdxAux G p rest (i + 1) bestIdx (some bd)

/-- Nearest vertex index, seeded like the source (`nearestIdx = 0`,
`bestDist = Infinity`). -/
def nearestIdxTo (G : Geom) (p : Pt) (ord : List Pt) : Nat :=
  nearestIdxAux G p ord 0 0 none

namespace DirOnly

/-- `orderedCoordsForPipe` of `part_001`: flattened coords, empty when fewer
than 2, reversed when `_dir` is `d_to_u` (with `_dir || "u_to_d"` default). -/
def orderedCoordsForPipe (ft : Feature) : List Pt :=
  let p := ft.properties
  let coords := flattenFeatureCoords ft
  if coords.length < 2 then []
  else
    let d := jsOrStr p._dir "u_to_d"
    if d = "d_to_u" then coords.reverse else coords

/-- The bearing-continuity selection loop of `chooseNextPipeDirOnly`:
running best `(id, delta)` with strict improvement, candidates without a
feature or with fewer than 2 ordered coords skipped.  `none` plays the role
of the `Infinity` initial best. -/
def bearingBest (G : Geom) (byId : ByObjectId) (currBrng : ℚ) :
    List ℤ → Option (ℤ × ℚ) → Option (ℤ × ℚ)
  | [], best => best
  | id :: rest, best =>
    match byId id with
    | none => bearingBest G byId currBrng rest best
    | some ft =>
      let ord := orderedCoordsForPipe ft
      if ord.length < 2 then bearingBest G byId currBrng rest best
      else
        let candBrng := G.bearingDeg (ord.getD 0 ⟨0, 0⟩) (ord.getD 1 ⟨0, 0⟩)
        let delta := angleDiffDeg currBrng candBrng
        match best with
        | none => bearingBest G byId currBrng rest (some (id, delta))
        | some (bid, bd) =>
          if delta < bd then bearingBest G byId currBrng rest (some (id, delta))
          else bearingBest G byId currBrng rest (some (bid, bd))

/-- The candidate narrowing of `chooseNextPipeDirOnly` (lines 434–436): drop
the previous id and visited ids, falling back to only dropping the previous
id when nothing survives. -/
def narrowedIds (nextIds : List ℤ) (prevId : Option ℤ) (visited : List ℤ) :
    List ℤ :=
  let ids0 := nextIds
  let ids1 := ids0.filter fun id => (some id != prevId) && !(visited.contains id)
  if ids1.length > 0 then ids1 else ids0.filter fun id => some id != prevId

/-- `chooseNextPipeDirOnly(nextIds, byObjectId, currOrderedCoords, prevId,
visited)` continued: return the single survivor of the narrowing directly,
otherwise pick the candidate whose initial bearing best matches the current
terminal bearing, with an ascending-id sort as last resort. -/
def chooseNextPipeDirOnly (G : Geom) (nextIds : List ℤ) (byId : ByObjectId)
    (currOrderedCoords : List Pt) (prevId : Option ℤ) (visited : List ℤ) :
    Option ℤ :=
  match narrowedIds nextIds prevId visited with
  | [] => none
  | [x] => some x
  | x :: y :: t =>
    let ids := x :: y :: t
    let n := currOrderedCoords.length
    let a := currOrderedCoords.getD (n - 2) ⟨0, 0⟩
    let b := currOrderedCoords.getD (n - 1) ⟨0, 0⟩
    let currBrng := G.bearingDeg a b
    match bearingBest G byId currBrng ids none with
    | some (bid, _) => some bid
    | none => (List.insertionSort (· ≤ ·) ids).head?

/-- The first-segment coordinate append of `buildPipePlanFromObjectId`:
push each point unless its 5 m grid cell was already seen. -/
def appendDedupCells (G : Geom) :
    List (ℤ × ℤ) → List Pt → List Pt → List (ℤ × ℤ) × List Pt
  | cells, plan, [] => (cells, plan)
  | cells, plan, c :: rest =>
    let k := G.gridKey c 5
    if cells.contains k then appendDedupCells G cells plan rest
    else appendDedupCells G (k :: cells) (plan ++ [c]) rest

/-- The subsequent-segment coordinate append: additionally skip points within
0.2 m of `last`, the last plan point as of segment entry. -/
def appendDedupCellsDist (G : Geom) (last : Option Pt) :
    List (ℤ × ℤ) → List Pt → List Pt → List (ℤ × ℤ) × List Pt
  | cells, plan, [] => (cells, plan)
  | cells, plan, c :: rest =>
    if (match last with
        | some l => decide (G.metersBetween l c < 1 / 5)
        | none => false) then
      appendDedupCellsDist G last cells plan rest
    else
      let k := G.gridKey c 5
      if cells.contains k then appendDedupCellsDist G last cells plan rest
      else appendDedupCellsDist G last (k :: cells) (plan ++ [c]) rest

/-- The mutable state of the `buildPipePlanFromObjectId` hop loop. -/
structure TraceState where
  plan : List Pt
  visited : List ℤ
  visitedCells : List (ℤ × ℤ)
  currentId : Option ℤ
  prevId : Option ℤ
  first : Bool
deriving Repr

/-- One-to-one embedding of the `for (let hop = 0; hop < maxHops; hop++)`
loop of `part_001`'s `buildPipePlanFromObjectId`; the fuel is the remaining
number of hops, the loop's `break`s return the state unchanged. -/
def buildLoop (G : Geom) (byId : ByObjectId) (startPoint : Option Pt) :
    Nat → TraceState → TraceState
  | 0, st => st
  | fuel + 1, st =>
    match st.currentId with
    | none => st
    | some currentId =>
      if st.visited.contains currentId then st
      else
        match byId currentId with
        | none => st
        | some ft =>
          let visited := currentId :: st.visited
          let ord := orderedCoordsForPipe ft
          if ord.length < 2 then { st with visited := visited }
          else
            let state1 :=
              match st.first, startPoint with
              | true, some sp =>
                let plan1 := st.plan ++ [sp]
                let nearestIdx := nearestIdxTo G sp ord
                let (cells2, plan2) :=
                  appendDedupCells G st.visitedCells plan1 (ord.drop nearestIdx)
                (cells2, plan2, false)
              | _, _ =>
                let last := st.plan.getLast?
                let (cells2, plan2) :=
                  appendDedupCellsDist G last st.visitedCells st.plan ord
                (cells2, plan2, st.first)
            let nextIds := ft.properties._nextObjectIds
            let nextId := chooseNextPipeDirOnly G nextIds byId ord st.prevId visited
            buildLoop G byId startPoint fuel
              { plan := state1.2.1
                visited := visited
                visitedCells := state1.1
                currentId := nextId
                prevId := some currentId
                first := state1.2.2 }

/-- Full trace state after running the hop loop from a fresh entry. -/
def runPipeTrace (G : Geom) (byId : ByObjectId) (startObjectId : ℤ)
    (startPoint : Option Pt) (maxHops : Nat := 2000) : TraceState :=
  buildLoop G byId startPoint maxHops
    { plan := []
      visited := []
      visitedCells := []
      currentId := some startObjectId
      prevId := none
      first := true }

/-- `buildPipePlanFromObjectId` of `part_001`: the coordinate plan produced
by the hop loop. -/
def buildPipePlanFromObjectId (G : Geom) (byId : ByObjectId)
    (startObjectId : ℤ) (startPoint : Option Pt) (maxHops : Nat := 2000) :
    List Pt :=
  (runPipeTrace G byId startObjectId startPoint maxHops).plan

end DirOnly

namespace CoordGraph

/-- `orderedCoordsForPipe` of `part_000`: the flattened coordinates in
geometry order (flow is geometry order in this variant). -/
def orderedCoordsForPipe (ft : Feature) : List Pt :=
  flattenFeatureCoords ft

/-- `normaliseSewerName(currentProps?.SEWER_NAME || currentProps?.SEWERNAME)`,
the current segment's normalized name used by `chooseNextPipeLowestDownIL`. -/
def currentNameOf (p : Props) : String :=
  normaliseSewerName (strFalsyOr p.SEWER_NAME p.SEWERNAME)

/-- The same-name candidate filter of `chooseNextPipeLowestDownIL`
(`nm && nm === currentName`, with `{}` for candidates missing from the map). -/
def sameNameFilter (nextIds : List ℤ) (byId : ByObjectId)
    (currentName : String) : List ℤ :=
  nextIds.filter fun id =>
    let nm := currentNameOf (propsOf (byId id))
    (nm != "") && (nm == currentName)

/-- Stage 1 of `chooseNextPipeLowestDownIL`: running lowest downstream IL,
strict improvement, candidates without a numeric IL skipped; `none` is the
`Infinity` initial best. -/
def lowestDownILBest (byId : ByObjectId) :
    List ℤ → Option (ℤ × ℚ) → Option (ℤ × ℚ)
  | [], best => best
  | id :: rest, best =>
    match toNum (propsOf (byId id)).DOWNSTREAM_IL, best with
    | some d, none => lowestDownILBest byId rest (some (id, d))
    | some d, some (bid, bd) =>
      if d < bd then lowestDownILBest byId rest (some (id, d))
      else lowestDownILBest byId rest (some (bid, bd))
    | none, b => lowestDownILBest byId rest b

/-- Stage 3 of `chooseNextPipeLowestDownIL`: running longest `PIPE_LENGTH`,
strict improvement, candidates without a numeric length skipped; `none` is
the `-Infinity` initial best. -/
def longestLenBest (byId : ByObjectId) :
    List ℤ → Option (ℤ × ℚ) → Option (ℤ × ℚ)
  | [], best => best
  | id :: rest, best =>
    match toNum (propsOf (byId id)).PIPE_LENGTH, best with
    | some len, none => longestLenBest byId rest (some (id, len))
    | some len, some (bid, bl) =>
      if len > bl then longestLenBest byId rest (some (id, len))
      else longestLenBest byId rest (some (bid, bl))
    | none, b => longestLenBest byId rest b

/-- `chooseNextPipeLowestDownIL(nextIds, byObjectId, currentProps)` of
`part_000`/`part_002`: restrict to same-name candidates when any exist, then
prefer the lowest downstream invert level, then a truthy
`_segment_candidate_objectid` contained in the candidate list, then the
longest pipe, then the first candidate. -/
def chooseNextPipeLowestDownIL (nextIds : List ℤ) (byId : ByObjectId)
    (currentProps : Props) : Option ℤ :=
  match nextIds with
  | [] => none
  | _ :: _ =>
    let currentName := currentNameOf currentProps
    let candidateIds :=
      if currentName ≠ "" then
        let sameName := sameNameFilter nextIds byId currentName
        if sameName.length > 0 then sameName else nextIds
      else nextIds
    match lowestDownILBest byId candidateIds none with
    | some (bid, _) => some bid
    | none =>
      let lenChoice :=
        match longestLenBest byId candidateIds none with
        | some (bid, _) => some bid
        | none => candidateIds.head?
      match currentProps._segment_candidate_objectid with
      | some segCand =>
        if (segCand != 0) && candidateIds.contains segCand then some segCand
        else lenChoice
      | none => lenChoice

/-- The while loop of `lookaheadScore`, by recursion on the remaining depth
`rem = depth - hops`.  Each exit point adds the source's final
`(depth - hops) * 20` continuation penalty for the hops not taken. -/
def lookaheadGo (byId : ByObjectId) (visited : List ℤ) :
    Nat → Option ℤ → ℤ → List ℤ → ℚ
  | rem, none, _, _ => (rem : ℚ) * 20
  | 0, some _, _, _ => 0
  | rem + 1, some id, prev, localSeen =>
    if visited.contains id then 50 + ((rem : ℚ) + 1) * 20
    else if localSeen.contains id then 200 + ((rem : ℚ) + 1) * 20
    else
      match byId id with
      | none => 100 + ((rem : ℚ) + 1) * 20
      | some ft =>
        let p := ft.properties
        let d := toNum p.DOWNSTREAM_IL
        let pen : ℚ := if d = none then 2 else 0
        let nextIds := p._nextObjectIds
        let stepIds := nextIds.filter fun x => x != prev
        let stepId :=
          if stepIds.length > 0 then chooseNextPipeLowestDownIL stepIds byId p
          else none
        pen + lookaheadGo byId visited rem stepId id (id :: localSeen)

/-- `lookaheadScore(startId, byObjectId, currProps, currId, prevId, visited,
depth)`: simulate forward from `startId`, penalizing re-entering visited or
locally-cycling segments and rewarding paths that keep going.  The local
cycle set is seeded with `currId` and `prevId`. -/
def lookaheadScore (startId : ℤ) (byId : ByObjectId) (currProps : Props)
    (currId : ℤ) (prevId : Option ℤ) (visited : List ℤ) (depth : Nat) : ℚ :=
  let _ := toNum currProps.DOWNSTREAM_IL
  lookaheadGo byId visited depth (some startId) currId (currId :: prevId.toList)

/-- The best-score selection loop of `chooseBestByLookahead`: running lowest
score, strict improvement; `none` is the `Infinity` initial best. -/
def lookBest (byId : ByObjectId) (currProps : Props) (currId : ℤ)
    (prevId : Option ℤ) (visited : List ℤ) :
    List ℤ → Option (ℤ × ℚ) → Option (ℤ × ℚ)
  | [], best => best
  | id :: rest, best =>
    let score := lookaheadScore id byId currProps currId prevId visited 10
    match best with
    | none => lookBest byId currProps currId prevId visited rest (some (id, score))
    | some (bid, bs) =>
      if score < bs then lookBest byId currProps currId prevId visited rest (some (id, score))
      else lookBest byId currProps currId prevId visited rest (some (bid, bs))

/-- `chooseBestByLookahead`: lowest lookahead score, with
`chooseNextPipeLowestDownIL` as fallback when no score was computed. -/
def chooseBestByLookahead (ids : List ℤ) (byId : ByObjectId)
    (currProps : Props) (currId : ℤ) (prevId : Option ℤ) (visited : List ℤ) :
    Option ℤ :=
  match ids with
  | [x] => some x
  | l =>
    match lookBest byId currProps currId prevId visited l none with
    | some (bid, _) => some bid
    | none => chooseNextPipeLowestDownIL l byId currProps

/-- `chooseNextPipeWithLookahead(candidateIds, byObjectId, currProps, currId,
prevId, visited)`: prefer candidates other than the immediately-previous pipe
(falling back to the full list when the previous pipe is all there is), then
prefer unvisited candidates (falling back likewise), return a single survivor
directly, otherwise score by lookahead. -/
def chooseNextPipeWithLookahead (candidateIds : List ℤ) (byId : ByObjectId)
    (currProps : Props) (currId : ℤ) (prevId : Option ℤ) (visited : List ℤ) :
    Option ℤ :=
  match candidateIds with
  | [] => none
  | _ :: _ =>
    let idsNoPrev := candidateIds.filter fun id => some id != prevId
    let idsBase := if idsNoPrev.length > 0 then idsNoPrev else candidateIds
    let idsUnvisited := idsBase.filter fun id => !(visited.contains id)
    let ids := if idsUnvisited.length > 0 then idsUnvisited else idsBase
    match ids with
    | [x] => some x
    | l => chooseBestByLookahead l byId currProps currId prevId visited

/-- `TARGET_PIPE_IDS` of `part_000` (Werribee, Peninsula outfalls). -/
def TARGET_PIPE_IDS : List ℤ := [311851, 311905]

/-- `getCandidates(ft, prevId)` of `part_000`'s DFS tracer: the feature's
`_nextObjectIds` with the immediately-previous id dropped. -/
def getCandidates (ft : Feature) (prevId : Option ℤ) : List ℤ :=
  ft.properties._nextObjectIds.filter fun id => some id != prevId

/-- One scored candidate of `pickCandidateOrder`: id, same-name flag (1/0)
and cross-section area. -/
structure Scored where
  id : ℤ
  sameName : ℤ
  area : ℚ
deriving DecidableEq, Repr

/-- The `pickCandidateOrder` comparator `(a, b)`: same-name flag descending,
then area descending, then id ascending — `a` sorts no later than `b`. -/
def pickLE (a b : Scored) : Prop :=
  b.sameName < a.sameName ∨
    (b.sameName = a.sameName ∧
      (b.area < a.area ∨ (b.area = a.area ∧ a.id ≤ b.id)))

instance : DecidableRel pickLE := fun a b =>
  inferInstanceAs (Decidable (b.sameName < a.sameName ∨
    (b.sameName = a.sameName ∧
      (b.area < a.area ∨ (b.area = a.area ∧ a.id ≤ b.id)))))

/-- `pickCandidateOrder(candidates, byObjectId, currentFt)` of `part_000`:
score each candidate by trimmed-name match with the current feature and by
`PIPE_WIDTH × PIPE_HEIGHT` area, then sort (stably, as the JS sort) by
same-name, area, ascending id. -/
def pickCandidateOrder (candidates : List ℤ) (byId : ByObjectId)
    (currentFt : Feature) : List ℤ :=
  let curP := currentFt.properties
  let curName := trimStr (strFalsyOr curP.SEWER_NAME curP.SEWERNAME)
  let scored := candidates.map fun id =>
    let p := propsOf (byId id)
    let name := trimStr (strFalsyOr p.SEWER_NAME p.SEWERNAME)
    let sameName : ℤ :=
      if curName ≠ "" ∧ name ≠ "" ∧ name = curName then 1 else 0
    let w := (toNum p.PIPE_WIDTH).getD 0
    let h := (toNum p.PIPE_HEIGHT).getD 0
    Scored.mk id sameName (max 0 w * max 0 h)
  (List.insertionSort pickLE scored).map fun sc => sc.id

/-- One DFS frame of `part_000`'s `buildPipePlanFromObjectId`:
`{ id, prevId, idx, ordered }`, with `ordered = null` until the frame's
candidates are computed. -/
structure Frame where
  id : ℤ
  prevId : Option ℤ
  idx : Nat
  ordered : Option (List ℤ)
deriving DecidableEq, Repr

/-- The mutable state of the DFS search loop.  `frames` and `path` are the
JS arrays pushed/popped at the end, kept here with the most recent element
at the head; `inPath` is the membership set; `pushes` counts the segments
entered (the seed plus every `path.push`), the traversal-step count; `found`
is the target flag. -/
structure DfsState where
  frames : List Frame
  path : List ℤ
  inPath : List ℤ
  pushes : Nat
  found : Bool
deriving DecidableEq, Repr

/-- `frames.pop(); inPath.delete(path.pop());` of the DFS loop. -/
def popTop (st : DfsState) (rest : List Frame) : DfsState :=
  { st with
    frames := rest
    path := st.path.tail
    inPath :=
      match st.path with
      | [] => st.inPath
      | x :: _ => st.inPath.erase x }

/-- One-to-one embedding of `part_000`'s DFS `while` loop (lines 310–345):
runs while frames remain and `path.length < maxSteps`; pops dead or
exhausted frames, stops on a target, otherwise takes the top frame's next
ordered candidate, skipping candidates already on the path.  The fuel only
makes the recursion primitive; a final state whose `frames` are empty (or
whose `found` flag is set) is one the JS loop also terminates in. -/
def dfsLoop (byId : ByObjectId) (maxSteps : Nat) : Nat → DfsState → DfsState
  | 0, st => st
  | fuel + 1, st =>
    match st.frames with
    | [] => st
    | top :: rest =>
      if st.path.length < maxSteps then
        match byId top.id with
        | none => dfsLoop byId maxSteps fuel (popTop st rest)
        | some ft =>
          if TARGET_PIPE_IDS.contains top.id then { st with found := true }
          else
            let ord :=
              match top.ordered with
              | some o => o
              | none => pickCandidateOrder (getCandidates ft top.prevId) byId ft
            let idx :=
              match top.ordered with
              | some _ => top.idx
              | none => 0
            if idx ≥ ord.length then dfsLoop byId maxSteps fuel (popTop st rest)
            else
              let nextId := ord.getD idx 0
              let top2 : Frame := { top with ordered := some ord, idx := idx + 1 }
              if st.inPath.contains nextId then
                dfsLoop byId maxSteps fuel { st with frames := top2 :: rest }
              else
                dfsLoop byId maxSteps fuel
                  { st with
                    frames := ⟨nextId, some top.id, 0, none⟩ :: top2 :: rest
                    path := nextId :: st.path
                    inPath := nextId :: st.inPath
                    pushes := st.pushes + 1 }
      else st

/-- The DFS search phase of `part_000`'s `buildPipePlanFromObjectId`: seed
the stack with the start segment (when the map has it) and run the loop.
The seed counts as the first traversal step. -/
def runDfs (byId : ByObjectId) (startObjectId : ℤ) (maxSteps fuel : Nat) :
    DfsState :=
  match byId startObjectId with
  | none => ⟨[], [], [], 0, false⟩
  | some _ =>
    dfsLoop byId maxSteps fuel
      ⟨[⟨startObjectId, none, 0, none⟩], [startObjectId], [startObjectId], 1, false⟩

/-- The coordinate-emission state of `part_000`'s `buildPipePlanFromObjectId`:
the `visitedCells` set and the plan being built. -/
structure EmitState where
  visitedCells : List (ℤ × ℤ)
  plan : List Pt
deriving Repr

/-- `pushPoint(pt)` of `part_000` (lines 352–357): skip the point when its
5 m grid cell was already emitted, otherwise record the cell and append. -/
def pushPoint (G : Geom) (st : EmitState) (pt : Pt) : EmitState :=
  let k := G.gridKey pt 5
  if st.visitedCells.contains k then st
  else { visitedCells := k :: st.visitedCells, plan := st.plan ++ [pt] }

/-- The per-segment coordinate loop of `part_000`: skip points within 0.2 m
of the current last plan point, push the rest through `pushPoint`. -/
def emitCoords (G : Geom) (st : EmitState) (coords : List Pt) : EmitState :=
  coords.foldl
    (fun st c =>
      if (match st.plan.getLast? with
          | some last => decide (G.metersBetween last c < 1 / 5)
          | none => false) then st
      else pushPoint G st c)
    st

/-- Emission for one pipe of the traced path: the first pipe (with a start
point) injects the contact point and walks from the nearest vertex onward,
later pipes walk all their coordinates. -/
def emitOnePipe (G : Geom) (byId : ByObjectId) (startPoint : Option Pt)
    (isFirst : Bool) (st : EmitState) (id : ℤ) : EmitState :=
  match byId id with
  | none => st
  | some ft =>
    let coords := orderedCoordsForPipe ft
    if coords.length < 2 then st
    else
      match isFirst, startPoint with
      | true, some sp =>
        let st1 := pushPoint G st ⟨sp.lat, sp.lng⟩
        let nearestIdx := nearestIdxTo G sp coords
        emitCoords G st1 (coords.drop nearestIdx)
      | _, _ => emitCoords G st coords

/-- The coordinate-plan construction of `part_000`'s
`buildPipePlanFromObjectId` (lines 347–410), for a given traced pipe-id
path: every emitted point passes through `pushPoint`. -/
def emitPlanFromPath (G : Geom) (byId : ByObjectId) (path : List ℤ)
    (startPoint : Option Pt) : List Pt :=
  match path with
  | [] => []
  | p0 :: rest =>
    (rest.foldl (emitOnePipe G byId startPoint false)
      (emitOnePipe G byId startPoint true ⟨[], []⟩ p0)).plan

end CoordGraph

namespace Bridge

/-- `NODE_GAP_BRIDGE_MAX_M = 45`. -/
def NODE_GAP_BRIDGE_MAX_M : ℚ := 45

/-- One record of `flowStartsByCell`: a segment's id together with its
flow-start coordinate, both raw (`lng`/`lat`) and projected to planar meters
(`mx`/`my`).  The source computes `mx`/`my` with the float Mercator
projection; here the projected coordinates are the given data. -/
structure FlowStartEntry where
  objectId : ℤ
  lng : ℚ
  lat : ℚ
  mx : ℚ
  my : ℚ
deriving DecidableEq, Repr

/-- Cell key of a projected point, `⌊m/cell⌋` per axis as in
`flowCellKeyFromLngLat`. -/
def cellOf (mx my cellSize : ℚ) : ℤ × ℤ := (⌊mx / cellSize⌋, ⌊my / cellSize⌋)

/-- The `flowStartsByCell` map: cell key to the entries pushed into it, in
insertion order. -/
def CellMap := List ((ℤ × ℤ) × List FlowStartEntry)

/-- Map lookup with the `|| []` default of the source. -/
def lookupCell : CellMap → (ℤ × ℤ) → List FlowStartEntry
  | [], _ => []
  | (k, l) :: rest, key => if k = key then l else lookupCell rest key

/-- Append one entry to its cell's list (creating the cell on first use), as
the per-feature `flowStartsByCell.set(key, arr)` push of Pass 1. -/
def addEntry : CellMap → FlowStartEntry → CellMap
  | [], e => [(cellOf e.mx e.my NODE_GAP_BRIDGE_MAX_M, [e])]
  | (k, l) :: rest, e =>
    if k = cellOf e.mx e.my NODE_GAP_BRIDGE_MAX_M then (k, l ++ [e]) :: rest
    else (k, l) :: addEntry rest e

/-- Build `flowStartsByCell` from the per-feature flow-start records. -/
def buildFlowStartsByCell (recs : List FlowStartEntry) : CellMap :=
  recs.foldl addEntry []

/-- `nearbyFlowCellKeys(mx, my, cellSize)`: the 3×3 neighborhood of the
point's cell, in the source's `dx`-outer/`dy`-inner order. -/
def nearbyFlowCellKeys (mx my cellSize : ℚ) : List (ℤ × ℤ) :=
  let cx := ⌊mx / cellSize⌋
  let cy := ⌊my / cellSize⌋
  [(cx - 1, cy - 1), (cx - 1, cy), (cx - 1, cy + 1),
   (cx, cy - 1), (cx, cy), (cx, cy + 1),
   (cx + 1, cy - 1), (cx + 1, cy), (cx + 1, cy + 1)]

/-- A bridge candidate: a nearby flow-start's id with its squared distance to
the segment's flow-end.  The source compares and sorts the Euclidean distance
`Math.sqrt(dx²+dy²)`; comparing and sorting the squared distance against the
squared radius is the same order. -/
structure BridgeCand where
  id : ℤ
  dM2 : ℚ
deriving DecidableEq, Repr

/-- The per-cell candidate scan of the gap-bridging block: skip the segment
itself, keep entries within the bridge radius of the flow-end `(ex, ey)`. -/
def candsInCell (ex ey : ℚ) (objectId : ℤ) :
    List FlowStartEntry → List BridgeCand
  | [] => []
  | cand :: rest =>
    if cand.objectId = objectId then candsInCell ex ey objectId rest
    else
      let dM2 := (cand.mx - ex) ^ 2 + (cand.my - ey) ^ 2
      if dM2 ≤ NODE_GAP_BRIDGE_MAX_M ^ 2 then
        ⟨cand.objectId, dM2⟩ :: candsInCell ex ey objectId rest
      else candsInCell ex ey objectId rest

/-- Gather bridge candidates over the 3×3 cell neighborhood of the flow-end,
in the source's scan order. -/
def gatherBridgeCandidates (m : CellMap) (ex ey : ℚ) (objectId : ℤ) :
    List BridgeCand :=
  ((nearbyFlowCellKeys ex ey NODE_GAP_BRIDGE_MAX_M).map
    fun k => candsInCell ex ey objectId (lookupCell m k)).flatten

/-- The `(a, b) => a.dM - b.dM` sort order. -/
def candLE (a b : BridgeCand) : Prop := a.dM2 ≤ b.dM2

instance : DecidableRel candLE :=
  fun a b => inferInstanceAs (Decidable (a.dM2 ≤ b.dM2))

instance : IsTotal BridgeCand candLE := ⟨fun a b => le_total a.dM2 b.dM2⟩

instance : IsTrans BridgeCand candLE := ⟨fun _ _ _ => le_trans⟩

/-- `p._sewer_name_norm || ""` of a candidate feature. -/
def nameNormOf (byId : ByObjectId) (id : ℤ) : String :=
  jsOrStr (propsOf (byId id))._sewer_name_norm ""

/-- `Array.from(new Set(list))`: keep the first occurrence of each element. -/
def dedupFirstAux {α : Type} [DecidableEq α] (seen : List α) :
    List α → List α
  | [] => []
  | x :: xs =>
    if seen.contains x then dedupFirstAux seen xs
    else x :: dedupFirstAux (x :: seen) xs

/-- Deduplicate keeping first occurrences. -/
def dedupFirst {α : Type} [DecidableEq α] (l : List α) : List α :=
  dedupFirstAux [] l

/-- `dedupFirstAux` lifted to a key function: keep the entries whose key has
not been seen yet. -/
def dedupKeyAux {α β : Type} [DecidableEq β] (f : α → β) (seen : List β) :
    List α → List α
  | [] => []
  | x :: xs =>
    if seen.contains (f x) then dedupKeyAux f seen xs
    else x :: dedupKeyAux f (f x :: seen) xs

/-- The same-name restriction of the gap-bridging block: when the segment
has a normalized name and some candidates share it, keep only those. -/
def bridgeFiltered (byId : ByObjectId) (candidateIds : List BridgeCand)
    (currentName : String) : List BridgeCand :=
  if currentName ≠ "" then
    let sameName := candidateIds.filter
      fun c => nameNormOf byId c.id == currentName
    if sameName.length > 0 then sameName else candidateIds
  else candidateIds

/-- Pass 2 of the v41 load for one feature: with zero strict candidates and a
valid flow-end, gather nearby flow-starts within the bridge radius, restrict
to same-name candidates when any exist, sort ascending by distance, keep the
first 3 distinct ids and flag the segment as bridged.  `currentName` is the
feature's `props._sewer_name_norm || ""`.  Returns the `_nextObjectIds` list
and the `_next_via_gap_bridge` flag. -/
def pass2Next (byId : ByObjectId) (cellMap : CellMap) (strictNext : List ℤ)
    (flowEndM : Option (ℚ × ℚ)) (currentName : String) (objectId : ℤ) :
    List ℤ × Bool :=
  match strictNext with
  | _ :: _ => (strictNext, false)
  | [] =>
    match flowEndM with
    | none => ([], false)
    | some endM =>
      let candidateIds := gatherBridgeCandidates cellMap endM.1 endM.2 objectId
      match candidateIds with
      | [] => ([], false)
      | _ :: _ =>
        let filtered := bridgeFiltered byId candidateIds currentName
        let sorted := List.insertionSort candLE filtered
        (dedupFirst ((sorted.take 3).map (·.id)), true)

end Bridge

/-! ### Concrete networks used by the closed evaluations -/

/-- A single two-vertex pipe with no attributes. -/
def pipeSimple : Feature := ⟨.lineStr [⟨0, 0⟩, ⟨0, 10⟩], {}⟩

/-- One-pipe network: OBJECTID 1 is `pipeSimple`. -/
def byIdSimple : ByObjectId := fun i => if i = 1 then some pipeSimple else none

/-- Candidate pipe with downstream invert level 5. -/
def pipeIL5 : Feature := ⟨.lineStr [⟨0, 0⟩, ⟨0, 1⟩], { DOWNSTREAM_IL := .num 5 }⟩

/-- Candidate pipe with downstream invert level 3. -/
def pipeIL3 : Feature := ⟨.lineStr [⟨0, 0⟩, ⟨0, 1⟩], { DOWNSTREAM_IL := .num 3 }⟩

/-- Candidate pipe identical to `pipeIL5` but with no invert level. -/
def pipeNoIL5 : Feature := ⟨.lineStr [⟨0, 0⟩, ⟨0, 1⟩], {}⟩

/-- Candidate pipe identical to `pipeIL3` but with no invert level. -/
def pipeNoIL3 : Feature := ⟨.lineStr [⟨0, 0⟩, ⟨0, 1⟩], {}⟩

/-- Fork network with invert levels: 10 ↦ down-IL 5, 20 ↦ down-IL 3. -/
def byIdIL : ByObjectId :=
  fun i => if i = 10 then some pipeIL5 else if i = 20 then some pipeIL3 else none

/-- The same fork network with the invert levels removed. -/
def byIdNoIL : ByObjectId :=
  fun i => if i = 10 then some pipeNoIL5 else if i = 20 then some pipeNoIL3 else none

/-- Current-segment properties whose direction was explicitly sourced from a
direction attribute. -/
def curDirSourced : Props := { _dir_source := some "DIR" }

/-- Current-segment properties named MAIN. -/
def curNamedMain : Props := { SEWER_NAME := some "MAIN" }

/-- Candidate named MAIN (same name as `curNamedMain`), single-vertex
geometry. -/
def pipeNamedMain : Feature := ⟨.lineStr [⟨0, 0⟩], { SEWER_NAME := some "MAIN" }⟩

/-- Candidate named OTHER, single-vertex geometry. -/
def pipeNamedOther : Feature := ⟨.lineStr [⟨0, 0⟩], { SEWER_NAME := some "OTHER" }⟩

/-- Fork network for the name-continuity scenario: 9 ↦ MAIN, 5 ↦ OTHER. -/
def byIdNamed : ByObjectId :=
  fun i => if i = 9 then some pipeNamedMain else if i = 5 then some pipeNamedOther else none

/-- A four-branch junction root: segment 1 fans out to 2, 3, 4, 5. -/
def pipeFanRoot : Feature := ⟨.lineStr [⟨0, 0⟩, ⟨0, 1⟩], { _nextObjectIds := [2, 3, 4, 5] }⟩

/-- A dead-end branch pipe (no successors). -/
def pipeDeadEnd : Feature := ⟨.lineStr [⟨0, 1⟩, ⟨0, 2⟩], {}⟩

/-- Fan network for the DFS step-cap counterexample: 1 is the root, 2–5 are
dead-end branches. -/
def byIdFan : ByObjectId :=
  fun i => if i = 1 then some pipeFanRoot
    else if 2 ≤ i ∧ i ≤ 5 then some pipeDeadEnd else none

/-- A flow-start record 10 m from the origin, for the gap-bridging witness. -/
def bridgeRec : Bridge.FlowStartEntry := ⟨2, 0, 0, 10, 0⟩

/-- The plan cells are pairwise distinct: the deduplication-by-grid-cell
property of a coordinate plan. -/
def cellDistinct (G : Geom) (plan : List Pt) : Prop :=
  List.Pairwise (fun a b => G.gridKey a 5 ≠ G.gridKey b 5) plan

/-- Invariant of the `part_000` emission state: every emitted point's cell
is recorded in `visitedCells`, and the emitted cells are pairwise distinct. -/
def EmitInv (G : Geom) (st : CoordGraph.EmitState) : Prop :=
  (∀ p ∈ st.plan, G.gridKey p 5 ∈ st.visitedCells) ∧ cellDistinct G st.plan

/-! ### Helper lemmas -/

/-- Each hop-loop iteration visits at most one new segment, so the visited
set grows by at most the fuel spent. -/
theorem buildLoop_visited_length (G : Geom) (byId : ByObjectId)
    (sp : Option Pt) :
    ∀ (fuel : Nat) (st : DirOnly.TraceState),
      (DirOnly.buildLoop G byId sp fuel st).visited.length ≤
        st.visited.length + fuel := by
  intro fuel
  induction fuel with
  | zero => intro st; simp [DirOnly.buildLoop]
  | succ n ih =>
    intro st
    unfold DirOnly.buildLoop
    split
    · omega
    · split
      · omega
      · split
        · omega
        · split <;> (dsimp only; split) <;>
            first
            | (simp only [List.length_cons]; omega)
            | exact le_trans (ih _) (by simp only [List.length_cons]; omega)

/-- Each DFS iteration grows the retained path by at most one and only while
it is below the cap, so the path length never exceeds the cap. -/
theorem dfsLoop_path_le (byId : ByObjectId) (maxSteps : Nat) :
    ∀ (fuel : Nat) (st : CoordGraph.DfsState),
      st.path.length ≤ maxSteps →
      (CoordGraph.dfsLoop byId maxSteps fuel st).path.length ≤ maxSteps := by
  intro fuel
  induction fuel with
  | zero => intro st h; exact h
  | succ n ih =>
    intro st h
    unfold CoordGraph.dfsLoop
    split
    · exact h
    · split
      · split
        · refine ih _ ?_
          simp only [CoordGraph.popTop, List.length_tail]
          omega
        · split
          · exact h
          · dsimp only
            split
            · refine ih _ ?_
              simp only [CoordGraph.popTop, List.length_tail]
              omega
            · split
              · exact ih _ h
              · refine ih _ ?_
                simp only [List.length_cons]
                omega
      · exact h

/-- C1 counterexample: in the `part_000` DFS tracer the step cap bounds only
the retained path, not the traversal.  On a four-branch junction with
`maxSteps = 3` the search enters 5 segments (the seed plus each dead-end
branch, backtracking in between) before the stack naturally empties with no
target found — more traversal steps than the cap allows. -/
theorem c1_cex_dfs_steps_exceed_cap :
    (CoordGraph.runDfs byIdFan 1 3 20).frames = [] ∧
      (CoordGraph.runDfs byIdFan 1 3 20).found = false ∧
      (CoordGraph.runDfs byIdFan 1 3 20).pushes = 5 ∧
      3 < (CoordGraph.runDfs byIdFan 1 3 20).pushes := by
  refine ⟨?_, ?_, ?_, ?_⟩ <;> decide

/-- C1 amended: both tracers terminate (each loop is embedded as primitive
recursion on an explicit budget).  For the `part_001` hop-loop walker the
cap is a hard bound on traversal steps: at most `maxHops` segments are
visited for every graph and entry, pure cycles included.  For the
`part_000` DFS tracer the `maxSteps` cap bounds only the retained path
length (for any positive cap); the number of segments entered during
backtracking can exceed the cap (see the counterexample). -/
theorem c1_amended_step_caps :
    (∀ (G : Geom) (byId : ByObjectId) (startObjectId : ℤ)
        (startPoint : Option Pt) (maxHops : Nat),
      (DirOnly.runPipeTrace G byId startObjectId startPoint
          maxHops).visited.length ≤ maxHops) ∧
      (∀ (byId : ByObjectId) (startObjectId : ℤ) (maxSteps fuel : Nat),
        1 ≤ maxSteps →
        (CoordGraph.runDfs byId startObjectId maxSteps fuel).path.length ≤
          maxSteps) := by
  constructor
  · intro G byId startObjectId startPoint maxHops
    have h := buildLoop_visited_length G byId startPoint maxHops
      { plan := []
        visited := []
        visitedCells := []
        currentId := some startObjectId
        prevId := none
        first := true }
    simpa [DirOnly.runPipeTrace] using h
  · intro byId startObjectId maxSteps fuel h1
    unfold CoordGraph.runDfs
    split
    · simp
    · refine dfsLoop_path_le byId maxSteps fuel _ ?_
      simpa using h1

/-- Witness for C1 amended: on the fan network with cap 3 the retained DFS
path stays within the cap (even as 5 segments are traversed). -/
theorem c1_amended_step_caps_witness :
    (CoordGraph.runDfs byIdFan 1 3 20).path.length ≤ 3 :=
  c1_amended_step_caps.2 byIdFan 1 3 20 (by decide)

/-- C2: the DIR-only traversal is a pure function of the graph and the
entry: two invocations over extensionally equal `byObjectId` maps, the same
entry segment, entry point and hop cap, produce identical plans. -/
theorem c2_plan_deterministic (G : Geom) (byId1 byId2 : ByObjectId)
    (startObjectId : ℤ) (startPoint : Option Pt) (maxHops : Nat)
    (h : ∀ i, byId1 i = byId2 i) :
    DirOnly.buildPipePlanFromObjectId G byId1 startObjectId startPoint maxHops =
      DirOnly.buildPipePlanFromObjectId G byId2 startObjectId startPoint maxHops := by
  have heq : byId1 = byId2 := funext h
  rw [heq]

/-- Witness for C2 at the one-pipe network. -/
theorem c2_plan_deterministic_witness :
    DirOnly.buildPipePlanFromObjectId ratGeo byIdSimple 1 (some ⟨0, 0⟩) 2000 =
      DirOnly.buildPipePlanFromObjectId ratGeo byIdSimple 1 (some ⟨0, 0⟩) 2000 :=
  c2_plan_deterministic ratGeo byIdSimple byIdSimple 1 (some ⟨0, 0⟩) 2000
    (fun _ => rfl)

/-- C3 counterexample: `chooseNextPipeLowestDownIL` ignores the direction
source.  With the current segment's direction explicitly sourced from a
direction attribute (`_dir_source = "DIR"`), candidates 10 (down IL 5) and
20 (down IL 3), it selects 20; on the same fork with the invert levels
removed it selects 10 — so candidate 10 was rejected solely for its
numerically higher downstream invert level. -/
theorem c3_cex_il_rejection_despite_dir :
    curDirSourced._dir_source = some "DIR" ∧
      CoordGraph.chooseNextPipeLowestDownIL [10, 20] byIdIL curDirSourced = some 20 ∧
      CoordGraph.chooseNextPipeLowestDownIL [10, 20] byIdNoIL curDirSourced = some 10 := by
  refine ⟨rfl, ?_, ?_⟩ <;> decide

/-- C3 amended: the invert-level successor resolver applies its
lowest-downstream-IL preference regardless of how the direction was sourced —
its result is invariant under any change of the current segment's
`_dir_source` field; the explicit-direction exception exists only in the
DIR-only variant, which reads no invert levels at all. -/
theorem c3_amended_dir_source_irrelevant (nextIds : List ℤ)
    (byId : ByObjectId) (p : Props) (s : Option String) :
    CoordGraph.chooseNextPipeLowestDownIL nextIds byId
        { p with _dir_source := s } =
      CoordGraph.chooseNextPipeLowestDownIL nextIds byId p := rfl

/-- C5 counterexample: when the immediately-previous segment is the sole
candidate, the DIR-only resolver returns `null` (a dead end) instead of
allowing the previous segment to be chosen. -/
theorem c5_cex_sole_prev_dead_end :
    DirOnly.chooseNextPipeDirOnly ratGeo [7] (fun _ => none) [] (some 7) [] =
      none := by decide

/-- C5 amended: the previous segment id is excluded from consideration, but
the two resolvers disagree on a sole previous-segment candidate: the
lookahead resolver falls back to the full candidate list and still chooses
the previous segment (no dead end, as claimed), shown here for every graph,
property bag and visited set; the DIR-only resolver excludes the previous id
unconditionally and dead-ends (see the counterexample). -/
theorem c5_amended_lookahead_keeps_sole_prev (p : ℤ) (byId : ByObjectId)
    (currProps : Props) (currId : ℤ) (visited : List ℤ) :
    CoordGraph.chooseNextPipeWithLookahead [p] byId currProps currId (some p)
        visited = some p := by
  unfold CoordGraph.chooseNextPipeWithLookahead
  by_cases hv : p ∈ visited <;>
    simp [List.filter, hv]

/-- The bearing-selection loop only ever answers with its accumulator or an
element of the candidate list. -/
theorem bearingBest_mem {G : Geom} {byId : ByObjectId} {currBrng : ℚ} :
    ∀ {l : List ℤ} {acc : Option (ℤ × ℚ)} {i : ℤ} {d : ℚ},
      DirOnly.bearingBest G byId currBrng l acc = some (i, d) →
      (∃ d', acc = some (i, d')) ∨ i ∈ l := by
  intro l
  induction l with
  | nil =>
    intro acc i d h
    exact Or.inl ⟨d, by simpa [DirOnly.bearingBest] using h⟩
  | cons id rest ih =>
    intro acc i d h
    rw [DirOnly.bearingBest] at h
    cases hft : byId id with
    | none =>
      rw [hft] at h
      rcases ih h with ⟨d', hd⟩ | hmem
      · exact Or.inl ⟨d', hd⟩
      · exact Or.inr (List.mem_cons_of_mem _ hmem)
    | some ft =>
      rw [hft] at h
      dsimp only at h
      by_cases hlen : (DirOnly.orderedCoordsForPipe ft).length < 2
      · rw [if_pos hlen] at h
        rcases ih h with ⟨d', hd⟩ | hmem
        · exact Or.inl ⟨d', hd⟩
        · exact Or.inr (List.mem_cons_of_mem _ hmem)
      · rw [if_neg hlen] at h
        cases hacc : acc with
        | none =>
          rw [hacc] at h
          rcases ih h with ⟨d', hd⟩ | hmem
          · obtain ⟨rfl, -⟩ : id = i ∧ _ :=
              Prod.mk.injEq .. ▸ Option.some.inj hd
            exact Or.inr (List.mem_cons_self _ _)
          · exact Or.inr (List.mem_cons_of_mem _ hmem)
        | some pair =>
          obtain ⟨bid, bd⟩ := pair
          rw [hacc] at h
          dsimp only at h
          split at h
          · rcases ih h with ⟨d', hd⟩ | hmem
            · obtain ⟨rfl, -⟩ : id = i ∧ _ :=
                Prod.mk.injEq .. ▸ Option.some.inj hd
              exact Or.inr (List.mem_cons_self _ _)
            · exact Or.inr (List.mem_cons_of_mem _ hmem)
          · rcases ih h with ⟨d', hd⟩ | hmem
            · obtain ⟨rfl, -⟩ : bid = i ∧ _ :=
                Prod.mk.injEq .. ▸ Option.some.inj hd
              exact Or.inl ⟨bd, rfl⟩
            · exact Or.inr (List.mem_cons_of_mem _ hmem)

/-- The head of the ascending-id fallback sort is a candidate. -/
theorem mem_of_head?_insertionSort {l : List ℤ} {x : ℤ}
    (h : (List.insertionSort (· ≤ ·) l).head? = some x) : x ∈ l := by
  have hperm := List.perm_insertionSort (· ≤ ·) l
  have hx : x ∈ List.insertionSort (· ≤ ·) l := by
    cases hs : List.insertionSort (· ≤ ·) l with
    | nil => rw [hs] at h; cases h
    | cons a t =>
      rw [hs] at h
      cases h
      exact List.mem_cons_self _ _
  exact hperm.mem_iff.mp hx

/-- The narrowed candidate list is drawn from the raw candidate list. -/
theorem narrowedIds_subset (nextIds : List ℤ) (prevId : Option ℤ)
    (visited : List ℤ) :
    DirOnly.narrowedIds nextIds prevId visited ⊆ nextIds := by
  unfold DirOnly.narrowedIds
  dsimp only
  split
  · exact fun a ha => List.mem_of_mem_filter ha
  · exact fun a ha => List.mem_of_mem_filter ha

/-- When every candidate is the previous id, the narrowing empties. -/
theorem narrowedIds_eq_nil {nextIds : List ℤ} {prevId : Option ℤ}
    (visited : List ℤ) (h : ∀ id ∈ nextIds, some id = prevId) :
    DirOnly.narrowedIds nextIds prevId visited = [] := by
  unfold DirOnly.narrowedIds
  have h2 : (nextIds.filter fun id => some id != prevId) = [] := by
    refine List.filter_eq_nil_iff.mpr fun a ha => ?_
    simp [h a ha]
  have h1 :
      (nextIds.filter fun id => (some id != prevId) && !(visited.contains id)) = [] := by
    refine List.filter_eq_nil_iff.mpr fun a ha => ?_
    simp [h a ha]
  dsimp only
  rw [h1, h2]
  simp

/-- C10: the DIR-only resolver answers `null` or a member of the given
candidate list — never an id outside it — and it answers `null` whenever the
candidate list holds nothing but the previous segment id. -/
theorem c10_dir_only_result_membership (G : Geom) (nextIds : List ℤ)
    (byId : ByObjectId) (coords : List Pt) (prevId : Option ℤ)
    (visited : List ℤ) :
    (∀ x, DirOnly.chooseNextPipeDirOnly G nextIds byId coords prevId visited =
        some x → x ∈ nextIds) ∧
      ((∀ id ∈ nextIds, some id = prevId) →
        DirOnly.chooseNextPipeDirOnly G nextIds byId coords prevId visited =
          none) := by
  constructor
  · intro x hx
    unfold DirOnly.chooseNextPipeDirOnly at hx
    have hsub := narrowedIds_subset nextIds prevId visited
    cases hn : DirOnly.narrowedIds nextIds prevId visited with
    | nil => rw [hn] at hx; cases hx
    | cons a t =>
      rw [hn] at hx hsub
      cases t with
      | nil =>
        cases hx
        exact hsub (List.mem_cons_self _ _)
      | cons b t2 =>
        dsimp only at hx
        cases hb : DirOnly.bearingBest G byId
            (G.bearingDeg (coords.getD (coords.length - 2) ⟨0, 0⟩)
              (coords.getD (coords.length - 1) ⟨0, 0⟩)) (a :: b :: t2) none with
        | some pair =>
          obtain ⟨bid, bd⟩ := pair
          rw [hb] at hx
          cases hx
          rcases bearingBest_mem hb with ⟨d', hd⟩ | hmem
          · cases hd
          · exact hsub hmem
        | none =>
          rw [hb] at hx
          exact hsub (mem_of_head?_insertionSort hx)
  · intro h
    unfold DirOnly.chooseNextPipeDirOnly
    rw [narrowedIds_eq_nil visited h]

/-- Witness for C10: at a candidate list holding only the previous id, the
resolver returns `null`. -/
theorem c10_dir_only_result_membership_witness :
    DirOnly.chooseNextPipeDirOnly ratGeo [42] (fun _ => none) [] (some 42) [] =
      none :=
  (c10_dir_only_result_membership ratGeo [42] (fun _ => none) [] (some 42) []).2
    (by decide)

/-- C4 counterexample: a fork where the current segment is named MAIN,
candidate 9 shares that normalized name and candidate 5 (named OTHER) does
not, yet the DIR-only resolver — which never consults names — selects 5. -/
theorem c4_cex_dir_only_ignores_names :
    CoordGraph.currentNameOf curNamedMain ≠ "" ∧
      CoordGraph.currentNameOf pipeNamedMain.properties =
        CoordGraph.currentNameOf curNamedMain ∧
      CoordGraph.currentNameOf pipeNamedOther.properties ≠
        CoordGraph.currentNameOf curNamedMain ∧
      DirOnly.chooseNextPipeDirOnly ratGeo [9, 5] byIdNamed
        [⟨0, 0⟩, ⟨0, 1⟩] none [] = some 5 := by
  refine ⟨?_, ?_, ?_, ?_⟩ <;> decide

/-- C4 amended: name continuity at such a fork is realized by the
invert-level resolver: whenever the current segment's normalized name is
non-empty and exactly one candidate shares it, `chooseNextPipeLowestDownIL`
selects that candidate; the DIR-only resolver ignores names entirely (see
the counterexample). -/
theorem c4_amended_unique_same_name (nextIds : List ℤ) (byId : ByObjectId)
    (p : Props) (y : ℤ)
    (hname : CoordGraph.currentNameOf p ≠ "")
    (hfilter : CoordGraph.sameNameFilter nextIds byId
      (CoordGraph.currentNameOf p) = [y]) :
    CoordGraph.chooseNextPipeLowestDownIL nextIds byId p = some y := by
  have hy : y ∈ nextIds := by
    have hmem : y ∈ CoordGraph.sameNameFilter nextIds byId
        (CoordGraph.currentNameOf p) := by
      rw [hfilter]; exact List.mem_cons_self _ _
    exact List.mem_of_mem_filter hmem
  cases hnx : nextIds with
  | nil => rw [hnx] at hy; cases hy
  | cons a t =>
    rw [hnx] at hfilter
    unfold CoordGraph.chooseNextPipeLowestDownIL
    dsimp only
    rw [if_pos hname, hfilter]
    dsimp only [List.length_cons]
    rw [if_pos (by omega)]
    cases hd : toNum (propsOf (byId y)).DOWNSTREAM_IL with
    | some d => simp [CoordGraph.lowestDownILBest, hd]
    | none =>
      have hil : CoordGraph.lowestDownILBest byId [y] none = none := by
        simp [CoordGraph.lowestDownILBest, hd]
      rw [hil]
      have hlen : (match CoordGraph.longestLenBest byId [y] none with
          | some (bid, _) => some bid
          | none => [y].head?) = some y := by
        cases hl : toNum (propsOf (byId y)).PIPE_LENGTH with
        | some len => simp [CoordGraph.longestLenBest, hl]
        | none => simp [CoordGraph.longestLenBest, hl]
      cases hsc : p._segment_candidate_objectid with
      | none => simpa [hsc] using hlen
      | some sc =>
        dsimp only
        by_cases hc : (sc != 0) && [y].contains sc
        · rw [if_pos hc]
          have : sc = y := by
            rcases Bool.and_eq_true .. ▸ hc with ⟨-, hin⟩
            simpa using hin
          rw [this]
        · rw [if_neg hc]
          exact hlen

/-- Witness for C4 amended: on the MAIN/OTHER fork the invert-level resolver
selects the same-named candidate 9. -/
theorem c4_amended_unique_same_name_witness :
    CoordGraph.chooseNextPipeLowestDownIL [9, 5] byIdNamed curNamedMain =
      some 9 :=
  c4_amended_unique_same_name [9, 5] byIdNamed curNamedMain 9 (by decide)
    (by decide)

/-- A fold whose step preserves a predicate preserves it overall. -/
theorem foldl_preserve {α σ : Type} (P : σ → Prop) (f : σ → α → σ)
    (hf : ∀ s a, P s → P (f s a)) :
    ∀ (l : List α) (s : σ), P s → P (l.foldl f s) := by
  intro l
  induction l with
  | nil => intro s hs; exact hs
  | cons a t ih => intro s hs; exact ih _ (hf s a hs)

/-- `pushPoint` preserves the emission invariant: it refuses any point whose
cell was already emitted. -/
theorem pushPoint_inv (G : Geom) {st : CoordGraph.EmitState} (pt : Pt)
    (h : EmitInv G st) : EmitInv G (CoordGraph.pushPoint G st pt) := by
  unfold CoordGraph.pushPoint
  cases hc : st.visitedCells.contains (G.gridKey pt 5) with
  | true => rw [if_pos hc]; exact h
  | false =>
    have hnotin : G.gridKey pt 5 ∉ st.visitedCells := by simpa using hc
    rw [if_neg (by simpa using hnotin)]
    constructor
    · intro p hp
      rcases List.mem_append.mp hp with hp | hp
      · exact List.mem_cons_of_mem _ (h.1 p hp)
      · rw [List.mem_singleton] at hp
        subst hp
        exact List.mem_cons_self _ _
    · refine List.pairwise_append.mpr ⟨h.2, List.pairwise_singleton _ _, ?_⟩
      intro a ha b hb
      rw [List.mem_singleton] at hb
      subst hb
      intro heq
      exact hnotin (heq ▸ h.1 a ha)

/-- The per-segment coordinate loop preserves the emission invariant. -/
theorem emitCoords_inv (G : Geom) {st : CoordGraph.EmitState}
    (coords : List Pt) (h : EmitInv G st) :
    EmitInv G (CoordGraph.emitCoords G st coords) := by
  unfold CoordGraph.emitCoords
  refine foldl_preserve (EmitInv G) _ ?_ coords st h
  intro s c hs
  split
  · exact hs
  · exact pushPoint_inv G c hs

/-- Per-pipe emission preserves the emission invariant. -/
theorem emitOnePipe_inv (G : Geom) (byId : ByObjectId) (startPoint : Option Pt)
    (isFirst : Bool) {st : CoordGraph.EmitState} (id : ℤ)
    (h : EmitInv G st) :
    EmitInv G (CoordGraph.emitOnePipe G byId startPoint isFirst st id) := by
  unfold CoordGraph.emitOnePipe
  split
  · exact h
  · dsimp only
    split
    · exact h
    · split
      · exact emitCoords_inv G _ (pushPoint_inv G _ h)
      · exact emitCoords_inv G _ h

/-- C9 counterexample: in the `part_001` tracer the injected entry point's
grid cell is never recorded in `visitedCells`, so the plan can repeat a
cell.  With a single pipe whose first vertex equals the entry point, the
returned plan holds that point twice — two coordinates (the injected entry
point among them) in the same spatial grid cell. -/
theorem c9_cex_entry_cell_repeated :
    ¬ cellDistinct ratGeo
        (DirOnly.buildPipePlanFromObjectId ratGeo byIdSimple 1 (some ⟨0, 0⟩)) := by
  show ¬ List.Pairwise (fun a b => ratGeo.gridKey a 5 ≠ ratGeo.gridKey b 5)
    (DirOnly.buildPipePlanFromObjectId ratGeo byIdSimple 1 (some ⟨0, 0⟩))
  decide

/-- C9 amended: the claim holds for the `part_000`/`part_002` emission, where
every point — the injected entry point included — passes through
`pushPoint`: for every graph, traced path and entry point the emitted plan's
grid cells are pairwise distinct.  The `part_001` variant pushes the entry
point without registering its cell and violates the claim (see the
counterexample). -/
theorem c9_amended_pushpoint_plan_dedup (G : Geom) (byId : ByObjectId)
    (path : List ℤ) (startPoint : Option Pt) :
    cellDistinct G (CoordGraph.emitPlanFromPath G byId path startPoint) := by
  unfold CoordGraph.emitPlanFromPath
  split
  · exact List.Pairwise.nil
  · have hinit : EmitInv G ⟨[], []⟩ := by
      refine ⟨?_, ?_⟩
      · intro p hp
        cases hp
      · exact List.Pairwise.nil
    exact (foldl_preserve (EmitInv G) _
      (fun s a hs => emitOnePipe_inv G byId startPoint false a hs) _ _
      (emitOnePipe_inv G byId startPoint true _ hinit)).2

/-- The safety clamp lands in the safety band. -/
theorem clamp_mem_band (n : ℚ) :
    PIPE_SPEED_MIN_MPS ≤ clamp n PIPE_SPEED_MIN_MPS PIPE_SPEED_MAX_MPS ∧
      clamp n PIPE_SPEED_MIN_MPS PIPE_SPEED_MAX_MPS ≤ PIPE_SPEED_MAX_MPS := by
  unfold clamp PIPE_SPEED_MIN_MPS PIPE_SPEED_MAX_MPS
  constructor
  · exact le_max_left _ _
  · exact max_le (by norm_num) (min_le_left _ _)

/-- C7: for every attribute combination (any raw `_v_half_mps`, including
absent, NaN-coerced and zero values), the speed used for pipe-mode motion
lies in [0.2, 3.0] m/s — both the speed computed on entering pipe mode and
the speed used on an animation tick, the latter under the invariant that the
carried-over speed (when present) was itself in the band. -/
theorem c7_pipe_speed_in_band :
    (∀ props : Props,
        PIPE_SPEED_MIN_MPS ≤ enterPipeModeSpeed props ∧
          enterPipeModeSpeed props ≤ PIPE_SPEED_MAX_MPS) ∧
      (∀ (prevSpeed : Option ℚ) (byObjectId : Option ByObjectId)
          (objectId : Option ℤ),
        (∀ q, prevSpeed = some q →
          PIPE_SPEED_MIN_MPS ≤ q ∧ q ≤ PIPE_SPEED_MAX_MPS) →
        PIPE_SPEED_MIN_MPS ≤ tickPipeSpeed prevSpeed byObjectId objectId ∧
          tickPipeSpeed prevSpeed byObjectId objectId ≤ PIPE_SPEED_MAX_MPS) := by
  constructor
  · intro props
    exact clamp_mem_band _
  · intro prevSpeed byObjectId objectId hprev
    have hbase : PIPE_SPEED_MIN_MPS ≤ jsOrNum prevSpeed (3 / 5) ∧
        jsOrNum prevSpeed (3 / 5) ≤ PIPE_SPEED_MAX_MPS := by
      unfold jsOrNum
      cases hp : prevSpeed with
      | none => exact ⟨by norm_num [PIPE_SPEED_MIN_MPS], by norm_num [PIPE_SPEED_MAX_MPS]⟩
      | some q =>
        dsimp only
        by_cases hq : q = 0
        · rw [if_pos hq]
          exact ⟨by norm_num [PIPE_SPEED_MIN_MPS], by norm_num [PIPE_SPEED_MAX_MPS]⟩
        · rw [if_neg hq]
          exact hprev q hp
    unfold tickPipeSpeed
    cases byObjectId with
    | none => exact hbase
    | some m =>
      cases objectId with
      | none => exact hbase
      | some oid => exact clamp_mem_band _

/-- Witness for C7 at a carried-over speed of 1 m/s with no graph. -/
theorem c7_pipe_speed_in_band_witness :
    PIPE_SPEED_MIN_MPS ≤ tickPipeSpeed (some 1) none none ∧
      tickPipeSpeed (some 1) none none ≤ PIPE_SPEED_MAX_MPS :=
  c7_pipe_speed_in_band.2 (some 1) none none
    (fun q hq => by
      cases hq
      constructor <;> norm_num [PIPE_SPEED_MIN_MPS, PIPE_SPEED_MAX_MPS])

/-- C8: the direction decision follows the claimed priority: a parseable
direction attribute wins and is tagged "DIR"; otherwise two numeric invert
levels decide by comparison (upstream ≥ downstream gives forward geometry
order) tagged "IL"; otherwise forward order by default. -/
theorem c8_direction_priority (p : Props) :
    (∀ d, parseDirFromProps p = some d → decideDir p = (d, "DIR")) ∧
      (parseDirFromProps p = none →
        ∀ upIL downIL, toNum p.UPSTREAM_IL = some upIL →
          toNum p.DOWNSTREAM_IL = some downIL →
          decideDir p =
            (if upIL ≥ downIL then "u_to_d" else "d_to_u", "IL")) ∧
      (parseDirFromProps p = none →
        (toNum p.UPSTREAM_IL = none ∨ toNum p.DOWNSTREAM_IL = none) →
        decideDir p = ("u_to_d", "default")) := by
  refine ⟨?_, ?_, ?_⟩
  · intro d hd
    unfold decideDir
    rw [hd]
  · intro hnone upIL downIL hu hdn
    unfold decideDir
    rw [hnone, hu, hdn]
  · intro hnone hil
    unfold decideDir
    rw [hnone]
    rcases hil with h | h
    · rw [h]
    · rw [h]
      cases toNum p.UPSTREAM_IL <;> rfl

/-- Witness for C8: an upper-case, padded direction attribute parses and
wins over the invert levels. -/
theorem c8_direction_priority_witness :
    decideDir
        { DIR := some " U_TO_D "
          UPSTREAM_IL := .num 1
          DOWNSTREAM_IL := .num 5 } =
      ("u_to_d", "DIR") :=
  (c8_direction_priority _).1 "u_to_d" (by decide)


/-- Key-aware first-occurrence dedup produces a sublist. -/
theorem dedupKeyAux_sublist {α β : Type} [DecidableEq β] (f : α → β) :
    ∀ (seen : List β) (l : List α), (Bridge.dedupKeyAux f seen l).Sublist l := by
  intro seen l
  induction l generalizing seen with
  | nil => exact List.Sublist.refl _
  | cons x xs ih =>
    unfold Bridge.dedupKeyAux
    cases hx : seen.contains (f x) with
    | true =>
      rw [if_pos rfl]
      exact (ih seen).cons _
    | false =>
      rw [if_neg (by simp)]
      exact (ih _).cons₂ _

/-- Deduplicating the mapped keys is mapping the key-aware dedup. -/
theorem dedupFirstAux_map {α β : Type} [DecidableEq β] (f : α → β) :
    ∀ (seen : List β) (l : List α),
      Bridge.dedupFirstAux seen (l.map f) =
        (Bridge.dedupKeyAux f seen l).map f := by
  intro seen l
  induction l generalizing seen with
  | nil => rfl
  | cons x xs ih =>
    rw [List.map_cons]
    unfold Bridge.dedupFirstAux Bridge.dedupKeyAux
    cases hx : seen.contains (f x) with
    | true =>
      rw [if_pos rfl, if_pos rfl]
      exact ih seen
    | false =>
      rw [if_neg (by simp), if_neg (by simp)]
      rw [List.map_cons, ih]

/-- Every candidate a cell scan produces comes from an entry of that cell,
carries that entry's id and squared distance, and lies within the bridge
radius. -/
theorem mem_candsInCell {ex ey : ℚ} {oid : ℤ} :
    ∀ {arr : List Bridge.FlowStartEntry} {c : Bridge.BridgeCand},
      c ∈ Bridge.candsInCell ex ey oid arr →
      ∃ r ∈ arr, r.objectId = c.id ∧
        c.dM2 = (r.mx - ex) ^ 2 + (r.my - ey) ^ 2 ∧
        c.dM2 ≤ Bridge.NODE_GAP_BRIDGE_MAX_M ^ 2 := by
  intro arr
  induction arr with
  | nil => intro c hc; cases hc
  | cons r rest ih =>
    intro c hc
    unfold Bridge.candsInCell at hc
    by_cases h1 : r.objectId = oid
    · rw [if_pos h1] at hc
      obtain ⟨r', hr', hprops⟩ := ih hc
      exact ⟨r', List.mem_cons_of_mem _ hr', hprops⟩
    · rw [if_neg h1] at hc
      dsimp only at hc
      by_cases h2 : (r.mx - ex) ^ 2 + (r.my - ey) ^ 2 ≤
          Bridge.NODE_GAP_BRIDGE_MAX_M ^ 2
      · rw [if_pos h2] at hc
        rcases List.mem_cons.mp hc with rfl | hc'
        · exact ⟨r, List.mem_cons_self _ _, rfl, rfl, h2⟩
        · obtain ⟨r', hr', hprops⟩ := ih hc'
          exact ⟨r', List.mem_cons_of_mem _ hr', hprops⟩
      · rw [if_neg h2] at hc
        obtain ⟨r', hr', hprops⟩ := ih hc
        exact ⟨r', List.mem_cons_of_mem _ hr', hprops⟩

/-- Every gathered bridge candidate comes from some cell of the map. -/
theorem mem_gatherBridgeCandidates {m : Bridge.CellMap} {ex ey : ℚ} {oid : ℤ}
    {c : Bridge.BridgeCand} (h : c ∈ Bridge.gatherBridgeCandidates m ex ey oid) :
    ∃ k, ∃ r ∈ Bridge.lookupCell m k, r.objectId = c.id ∧
      c.dM2 = (r.mx - ex) ^ 2 + (r.my - ey) ^ 2 ∧
      c.dM2 ≤ Bridge.NODE_GAP_BRIDGE_MAX_M ^ 2 := by
  unfold Bridge.gatherBridgeCandidates at h
  rcases List.mem_flatten.mp h with ⟨l, hl, hc⟩
  rcases List.mem_map.mp hl with ⟨k, -, rfl⟩
  obtain ⟨r, hr, hprops⟩ := mem_candsInCell hc
  exact ⟨k, r, hr, hprops⟩

/-- An entry found in a cell after one `addEntry` was already there or is
the added record. -/
theorem mem_lookupCell_addEntry {e x : Bridge.FlowStartEntry} {k : ℤ × ℤ} :
    ∀ {m : Bridge.CellMap}, x ∈ Bridge.lookupCell (Bridge.addEntry m e) k →
      x ∈ Bridge.lookupCell m k ∨ x = e := by
  intro m
  induction m with
  | nil =>
    intro h
    unfold Bridge.addEntry Bridge.lookupCell at h
    by_cases hk : Bridge.cellOf e.mx e.my Bridge.NODE_GAP_BRIDGE_MAX_M = k
    · rw [if_pos hk] at h
      rw [List.mem_singleton] at h
      exact Or.inr h
    · rw [if_neg hk] at h
      cases h
  | cons kl rest ih =>
    obtain ⟨k0, l0⟩ := kl
    intro h
    unfold Bridge.addEntry at h
    by_cases hcell : k0 = Bridge.cellOf e.mx e.my Bridge.NODE_GAP_BRIDGE_MAX_M
    · rw [if_pos hcell] at h
      unfold Bridge.lookupCell at h ⊢
      by_cases hk : k0 = k
      · rw [if_pos hk] at h ⊢
        rcases List.mem_append.mp h with h | h
        · exact Or.inl h
        · rw [List.mem_singleton] at h
          exact Or.inr h
      · rw [if_neg hk] at h ⊢
        exact Or.inl h
    · rw [if_neg hcell] at h
      unfold Bridge.lookupCell at h ⊢
      by_cases hk : k0 = k
      · rw [if_pos hk] at h ⊢
        exact Or.inl h
      · rw [if_neg hk] at h ⊢
        exact ih h

/-- An entry found in any cell of the built `flowStartsByCell` map is one of
the flow-start records it was built from. -/
theorem mem_lookupCell_build {x : Bridge.FlowStartEntry} {k : ℤ × ℤ} :
    ∀ (recs : List Bridge.FlowStartEntry),
      x ∈ Bridge.lookupCell (Bridge.buildFlowStartsByCell recs) k → x ∈ recs := by
  have main : ∀ (recs : List Bridge.FlowStartEntry) (m : Bridge.CellMap)
      (k' : ℤ × ℤ), x ∈ Bridge.lookupCell (recs.foldl Bridge.addEntry m) k' →
      (∃ k2, x ∈ Bridge.lookupCell m k2) ∨ x ∈ recs := by
    intro recs
    induction recs with
    | nil =>
      intro m k' h
      exact Or.inl ⟨k', h⟩
    | cons r rest ih =>
      intro m k' h
      rcases ih (Bridge.addEntry m r) k' h with ⟨k2, h2⟩ | hmem
      · rcases mem_lookupCell_addEntry h2 with h3 | rfl
        · exact Or.inl ⟨k2, h3⟩
        · exact Or.inr (List.mem_cons_self _ _)
      · exact Or.inr (List.mem_cons_of_mem _ hmem)
  intro recs h
  rcases main recs [] k h with ⟨k2, h2⟩ | hmem
  · cases h2
  · exact hmem

/-- The same-name restriction never invents candidates. -/
theorem bridgeFiltered_subset (byId : ByObjectId)
    (cands : List Bridge.BridgeCand) (currentName : String) :
    Bridge.bridgeFiltered byId cands currentName ⊆ cands := by
  unfold Bridge.bridgeFiltered
  split
  · dsimp only
    split
    · exact fun c hc => List.mem_of_mem_filter hc
    · exact fun c hc => hc
  · exact fun c hc => hc

/-- When the segment has a name and some gathered candidate shares it, the
restriction keeps only same-name candidates. -/
theorem bridgeFiltered_same_name (byId : ByObjectId)
    (cands : List Bridge.BridgeCand) (currentName : String)
    (hname : currentName ≠ "")
    (hex : ∃ c ∈ cands, Bridge.nameNormOf byId c.id = currentName) :
    ∀ c ∈ Bridge.bridgeFiltered byId cands currentName,
      Bridge.nameNormOf byId c.id = currentName := by
  unfold Bridge.bridgeFiltered
  rw [if_pos hname]
  dsimp only
  obtain ⟨c0, hc0, hc0name⟩ := hex
  have hmem : c0 ∈ cands.filter fun c => Bridge.nameNormOf byId c.id == currentName := by
    rw [List.mem_filter]
    exact ⟨hc0, by simp [hc0name]⟩
  rw [if_pos (List.length_pos.mpr (List.ne_nil_of_mem hmem))]
  intro c hc
  have := (List.mem_filter.mp hc).2
  simpa using this


/-- With zero strict candidates, a valid flow-end and a non-empty gathered
candidate set, Pass 2 takes the bridged branch. -/
theorem pass2Next_bridged (byId : ByObjectId) (cm : Bridge.CellMap)
    (currentName : String) (objectId : ℤ) (e : ℚ × ℚ)
    (hne : Bridge.gatherBridgeCandidates cm e.1 e.2 objectId ≠ []) :
    Bridge.pass2Next byId cm [] (some e) currentName objectId =
      (Bridge.dedupFirst (((List.insertionSort Bridge.candLE
          (Bridge.bridgeFiltered byId
            (Bridge.gatherBridgeCandidates cm e.1 e.2 objectId)
            currentName)).take 3).map fun c => c.id), true) := by
  unfold Bridge.pass2Next
  dsimp only
  cases hc : Bridge.gatherBridgeCandidates cm e.1 e.2 objectId with
  | nil => exact absurd hc hne
  | cons c0 crest => rfl

end TrackMyPoo
